import Mathlib

/-!
Verification of the live-preview synchronization engine of the vanilla
template in `src/pages/Editor.tsx` (the `VanillaPreview` component, the
`IFRAME_SHELL` bootstrap document and its inline message listener).

Strings are modelled as `List Char`.  The JavaScript regular-expression
operations used by `extractBodyContent` are modelled by explicit scanners
with the same leftmost, non-greedy semantics:

* `content.replace(/<script[\s\S]*?<\/script>/gi, '')` deletes, left to
  right, each non-overlapping match consisting of a case-insensitive
  `<script`, a shortest filler, and a case-insensitive `</script>`;
  scanning resumes after the deleted match, so the kept segments are
  concatenated without being rescanned.  `stripSegs` computes the kept
  segments and `stripScripts` their concatenation.
* `html.match(/<body[^>]*>([\s\S]*?)<\/body>/i)` succeeds exactly when the
  first case-insensitive `<body` occurrence is followed by some `>` and a
  case-insensitive `</body>` occurs after that `>`; the captured group is
  the text between that first `>` and the first following `</body>`.  (If
  the first `<body` occurrence cannot be completed, no later start can: a
  later `<body` has its first `>` no earlier, and a `</body>` after it
  would also close the first one.)  `bodyMatch` returns the group.

The host state machine models the React component: `isReady` is the
`isReady` state, `bootLatch` is `initializedRef`, `pending` records
whether a debounce timer is pending (`debounceRef`), `files` is the live
file prop, and `boots` counts assignments of `srcdoc` (bootstrap loads).
-/

namespace CodeLab

/-- ASCII lower-casing of one character, modelling the case-insensitive
regular-expression flags (`/i`, `/gi`) used in `extractBodyContent`. -/
def lowerC (c : Char) : Char :=
  if 65 ≤ c.toNat ∧ c.toNat ≤ 90 then Char.ofNat (c.toNat + 32) else c

/-- Does the (already lower-case) pattern `pat` occur at the start of `s`,
comparing case-insensitively. -/
def matchAt (pat s : List Char) : Bool :=
  (s.take pat.length).map lowerC == pat

/-- Index of the leftmost case-insensitive occurrence of `pat` in `s`,
mirroring the left-to-right scan of the JavaScript regex engine. -/
def findPat (pat : List Char) : List Char → Option Nat
  | [] => if matchAt pat [] then some 0 else none
  | c :: cs =>
    if matchAt pat (c :: cs) then some 0 else (findPat pat cs).map (· + 1)

/-- The literal `<script` of the pattern `/<script[\s\S]*?<\/script>/gi`. -/
def openScriptT : List Char := "<script".toList

/-- The literal `</script>` of the pattern `/<script[\s\S]*?<\/script>/gi`. -/
def closeScriptT : List Char := "</script>".toList

/-- Kept segments of the global replace
`content.replace(/<script[\s\S]*?<\/script>/gi, '')`: repeatedly find the
leftmost case-insensitive `<script`, the shortest extension to a
`</script>`, drop the match, and continue after it.  The `fuel` argument
only bounds the recursion; `s.length` is always sufficient because every
removed match has at least 16 characters. -/
def stripSegsF : Nat → List Char → List (List Char)
  | 0, s => [s]
  | fuel + 1, s =>
    match findPat openScriptT s with
    | none => [s]
    | some i =>
      match findPat closeScriptT (s.drop (i + 7)) with
      | none => [s]
      | some j => s.take i :: stripSegsF fuel ((s.drop (i + 7)).drop (j + 9))

/-- Kept segments of the script-stripping replace on `s`. -/
def stripSegs (s : List Char) : List (List Char) :=
  stripSegsF s.length s

/-- Result of `content.replace(/<script[\s\S]*?<\/script>/gi, '')`: the
kept segments, concatenated. -/
def stripScripts (s : List Char) : List Char :=
  (stripSegs s).flatten

/-- Does the single regex `/<script[\s\S]*?<\/script>/i` match somewhere in
`s`, i.e. does `s` contain a complete script block. -/
def hasBlock (s : List Char) : Bool :=
  match findPat openScriptT s with
  | none => false
  | some i => (findPat closeScriptT (s.drop (i + 7))).isSome

/-- Declarative reading of "contains a complete `<script>...</script>`
block (case-insensitive)": an opening `<script` at `p` and a closing
`</script>` at some `q` past the opening literal. -/
def containsScriptBlock (s : List Char) : Prop :=
  ∃ p q, matchAt openScriptT (s.drop p) = true ∧
    matchAt closeScriptT (s.drop q) = true ∧ p + 7 ≤ q

/-- Capture group of `html.match(/<body[^>]*>([\s\S]*?)<\/body>/i)`:
content between the first `<body ...>` open tag and the next `</body>`. -/
def bodyMatch (s : List Char) : Option (List Char) :=
  match findPat "<body".toList s with
  | none => none
  | some i =>
    match findPat ">".toList (s.drop (i + 5)) with
    | none => none
    | some g =>
      match findPat "</body>".toList ((s.drop (i + 5)).drop (g + 1)) with
      | none => none
      | some q => some (((s.drop (i + 5)).drop (g + 1)).take q)

/-- Whitespace trimmed by JavaScript `String.prototype.trim` (the
characters that can occur in this code base). -/
def isJsWS (c : Char) : Bool :=
  (c == ' ') || (c == '\t') || (c == '\n') || (c == '\r') ||
    (c == '\x0b') || (c == '\x0c') || (c == ' ') || (c == '﻿')

/-- Model of `String.prototype.trim`: drop whitespace at both ends. -/
def trimChars (s : List Char) : List Char :=
  ((s.dropWhile isJsWS).reverse.dropWhile isJsWS).reverse

/-- `extractBodyContent` from `Editor.tsx` (lines 88-102): empty input
yields empty output; otherwise the content between the `<body>` tags (or,
with no body match, the whole input) has its script blocks removed and is
trimmed. -/
def extractBodyContent (html : List Char) : List Char :=
  if html.isEmpty then []
  else
    match bodyMatch html with
    | some inner => trimChars (stripScripts inner)
    | none => trimChars (stripScripts html)

/-- The body candidate that `extractBodyContent` strips: the capture group
of the body regex when it matches, the whole content otherwise. -/
def bodyCandidate (html : List Char) : List Char :=
  (bodyMatch html).getD html

/-- `ProjectFile` from `types/index.ts`: virtual path, raw content, and an
advisory language tag. -/
structure ProjectFile where
  path : List Char
  content : List Char
  language : List Char
  deriving DecidableEq

/-- The three derived content layers of an update message. -/
structure Contents where
  html : List Char
  css : List Char
  js : List Char
  deriving DecidableEq

/-- `getContents` from `Editor.tsx` (lines 105-115): entry file by exact
path, stylesheet by `.css` suffix, script by `.js` suffix excluding paths
containing `package.json`; absent layers degrade to the empty string. -/
def getContents (files : List ProjectFile) : Contents :=
  let htmlFile := files.find? fun f =>
    f.path == "/index.html".toList || f.path == "index.html".toList
  let cssFile := files.find? fun f => ".css".toList.isSuffixOf f.path
  let jsFile := files.find? fun f =>
    ".js".toList.isSuffixOf f.path && !(decide ("package.json".toList <:+: f.path))
  { html := extractBodyContent ((htmlFile.map ProjectFile.content).getD [])
    css := (cssFile.map ProjectFile.content).getD []
    js := (jsFile.map ProjectFile.content).getD [] }

/-- An inbound `{ type: "update", html?, css?, js? }` message as seen by
the sandbox listener in `IFRAME_SHELL` (each field checked against
`undefined`). -/
structure UpdateMsg where
  html : Option (List Char)
  css : Option (List Char)
  js : Option (List Char)
  deriving DecidableEq

/-- Sandbox document state: the `__css__` style text, the `__html__`
container markup, and the `__lastJs__` variable of the bootstrap script. -/
structure SandboxState where
  cssText : List Char
  htmlText : List Char
  lastJs : List Char
  deriving DecidableEq

/-- Sandbox state right after the bootstrap document loads: empty
placeholders and `var __lastJs__ = ''`. -/
def initSandbox : SandboxState := ⟨[], [], []⟩

/-- The IIFE wrapper built by the sandbox listener:
`'(function() {\n' + e.data.js + '\n})();'`. -/
def wrapIife (js : List Char) : List Char :=
  "(function() \x7b\n".toList ++ js ++ "\n\x7d)();".toList

/-- One attempted script execution inside the sandbox: the wrapped code
handed to `new Function`, and whether running it threw (the error is
caught and logged, never propagated). -/
structure ExecAttempt where
  code : List Char
  faulted : Bool
  deriving DecidableEq

/-- The CSS and HTML updates of the sandbox listener (`IFRAME_SHELL` lines
43-51): each layer is written into its placeholder when present. -/
def applyDom (st : SandboxState) (m : UpdateMsg) : SandboxState :=
  let st1 := match m.css with
    | some c => { st with cssText := c }
    | none => st
  match m.html with
  | some h => { st1 with htmlText := h }
  | none => st1

/-- The sandbox message listener of `IFRAME_SHELL` (lines 40-65) on one
update message: apply CSS and HTML, then, when `js` is present and differs
from `__lastJs__`, record it in `__lastJs__` and attempt to execute the
IIFE-wrapped code.  `throws` says which scripts fault at run time; a fault
is caught inside the listener and changes no state. -/
def sandboxStep (throws : List Char → Bool) (st : SandboxState) (m : UpdateMsg) :
    SandboxState × List ExecAttempt :=
  let st2 := applyDom st m
  match m.js with
  | some j =>
    if j == st2.lastJs then (st2, [])
    else ({ st2 with lastJs := j }, [⟨wrapIife j, throws (wrapIife j)⟩])
  | none => (st2, [])

/-- Host-side state of one `VanillaPreview` session. -/
structure HostState where
  isReady : Bool
  bootLatch : Bool
  pending : Bool
  files : List ProjectFile
  boots : Nat
  deriving DecidableEq

/-- Host state of a freshly created session: not ready, latch clear, no
pending timer, no bootstrap load yet. -/
def initHost (fs : List ProjectFile) : HostState := ⟨false, false, false, fs, 0⟩

/-- Events driving the host side of the sync channel. -/
inductive HostEvent where
  | mount
  | readySignal
  | filesChanged (fs : List ProjectFile)
  | timerFire
  | refresh
  deriving DecidableEq

/-- One host transition, with the update messages it posts.
`mount` is the one-shot srcdoc effect (lines 80-85): guarded by the latch.
`readySignal` is the `'ready'` message handler (lines 118-132): it always
posts one immediate update from the live files; on the `false → true`
readiness transition the files effect (lines 135-161) re-runs and also
schedules a debounce timer, while a repeated signal leaves state untouched
(`setIsReady(true)` bails out when already `true`).
`filesChanged` is the files effect: its cleanup cancels any pending timer
and, only when ready, a new timer is scheduled.
`timerFire` is the 150 ms debounce callback: it posts one update extracted
from the live files at fire time.
`refresh` is `handleRefresh` (lines 164-170): readiness and latch reset and
the bootstrap document is reassigned; leaving the ready state re-runs the
files effect, whose cleanup cancels a pending timer. -/
def hostStep (s : HostState) : HostEvent → HostState × List Contents
  | .mount =>
    if s.bootLatch then (s, [])
    else ({ s with bootLatch := true, boots := s.boots + 1 }, [])
  | .readySignal =>
    if s.isReady then (s, [getContents s.files])
    else ({ s with isReady := true, pending := true }, [getContents s.files])
  | .filesChanged fs =>
    if s.isReady then ({ s with files := fs, pending := true }, [])
    else ({ s with files := fs }, [])
  | .timerFire =>
    if s.pending then ({ s with pending := false }, [getContents s.files])
    else (s, [])
  | .refresh =>
    if s.isReady then
      ({ s with isReady := false, pending := false, bootLatch := false,
                boots := s.boots + 1 }, [])
    else ({ s with bootLatch := false, boots := s.boots + 1 }, [])

/-- Run a sequence of events, collecting all posted update messages. -/
def hostRun (s : HostState) : List HostEvent → HostState × List Contents
  | [] => (s, [])
  | e :: es =>
    let p := hostStep s e
    let q := hostRun p.1 es
    (q.1, p.2 ++ q.2)

/-- Is an event the sandbox ready signal. -/
def isReadySig : HostEvent → Bool
  | .readySignal => true
  | _ => false

end CodeLab

namespace CodeLab

lemma findPat_nil_pos {pat : List Char} (hm : matchAt pat [] = true) :
    findPat pat [] = some 0 := by
  simp [findPat, hm]

lemma findPat_nil_neg {pat : List Char} (hm : matchAt pat [] = false) :
    findPat pat [] = none := by
  simp [findPat, hm]

lemma findPat_cons_pos {pat : List Char} {c : Char} {cs : List Char}
    (hm : matchAt pat (c :: cs) = true) : findPat pat (c :: cs) = some 0 := by
  simp [findPat, hm]

lemma findPat_cons_neg {pat : List Char} {c : Char} {cs : List Char}
    (hm : matchAt pat (c :: cs) = false) :
    findPat pat (c :: cs) = (findPat pat cs).map (· + 1) := by
  simp [findPat, hm]

lemma matchAt_le {pat s : List Char} (h : matchAt pat s = true) :
    pat.length ≤ s.length := by
  unfold matchAt at h
  have h' := congrArg List.length (eq_of_beq h)
  simp only [List.length_map, List.length_take] at h'
  omega

lemma findPat_some_le {pat : List Char} :
    ∀ {s : List Char} {i : Nat}, findPat pat s = some i → i + pat.length ≤ s.length := by
  intro s
  induction s with
  | nil =>
    intro i h
    cases hm : matchAt pat [] with
    | true =>
      rw [findPat_nil_pos hm, Option.some.injEq] at h
      subst h
      simpa using matchAt_le hm
    | false =>
      rw [findPat_nil_neg hm] at h
      cases h
  | cons c cs ih =>
    intro i h
    cases hm : matchAt pat (c :: cs) with
    | true =>
      rw [findPat_cons_pos hm, Option.some.injEq] at h
      subst h
      simpa using matchAt_le hm
    | false =>
      rw [findPat_cons_neg hm] at h
      obtain ⟨i', hi', rfl⟩ := Option.map_eq_some'.mp h
      have := ih hi'
      simp only [List.length_cons]
      omega

lemma findPat_min {pat : List Char} :
    ∀ {s : List Char} {i : Nat}, findPat pat s = some i →
      matchAt pat (s.drop i) = true ∧ ∀ k, k < i → matchAt pat (s.drop k) = false := by
  intro s
  induction s with
  | nil =>
    intro i h
    cases hm : matchAt pat [] with
    | true =>
      rw [findPat_nil_pos hm, Option.some.injEq] at h
      subst h
      exact ⟨by simpa using hm, fun k hk => absurd hk (Nat.not_lt_zero k)⟩
    | false =>
      rw [findPat_nil_neg hm] at h
      cases h
  | cons c cs ih =>
    intro i h
    cases hm : matchAt pat (c :: cs) with
    | true =>
      rw [findPat_cons_pos hm, Option.some.injEq] at h
      subst h
      exact ⟨by simpa using hm, fun k hk => absurd hk (Nat.not_lt_zero k)⟩
    | false =>
      rw [findPat_cons_neg hm] at h
      obtain ⟨i', hi', rfl⟩ := Option.map_eq_some'.mp h
      obtain ⟨h1, h2⟩ := ih hi'
      refine ⟨by simpa using h1, ?_⟩
      intro k hk
      cases k with
      | zero => simpa using hm
      | succ k' => simpa [List.drop_succ_cons] using h2 k' (by omega)

lemma findPat_none {pat : List Char} :
    ∀ {s : List Char}, findPat pat s = none → ∀ k, matchAt pat (s.drop k) = false := by
  intro s
  induction s with
  | nil =>
    intro h k
    cases hm : matchAt pat [] with
    | true => rw [findPat_nil_pos hm] at h; cases h
    | false => simpa using hm
  | cons c cs ih =>
    intro h k
    cases hm : matchAt pat (c :: cs) with
    | true => rw [findPat_cons_pos hm] at h; cases h
    | false =>
      rw [findPat_cons_neg hm, Option.map_eq_none'] at h
      cases k with
      | zero => simpa using hm
      | succ k' => simpa [List.drop_succ_cons] using ih h k'

lemma matchAt_of_take {pat s : List Char} {n k : Nat} (hp : pat ≠ [])
    (h : matchAt pat ((s.take n).drop k) = true) :
    matchAt pat (s.drop k) = true ∧ k + pat.length ≤ n := by
  have hle := matchAt_le h
  rw [List.drop_take] at h
  have hlen : pat.length ≤ n - k := by
    have h2 := matchAt_le h
    simp only [List.length_take, List.length_drop] at h2
    omega
  have hpos : 0 < pat.length := List.length_pos.mpr hp
  refine ⟨?_, ?_⟩
  · unfold matchAt at h ⊢
    rwa [List.take_take, Nat.min_eq_left hlen] at h
  · simp only [List.length_drop, List.length_take] at hle
    omega

lemma findPat_take_none {pat s : List Char} {i : Nat} (hp : pat ≠ [])
    (hf : findPat pat s = some i) : findPat pat (s.take i) = none := by
  cases h : findPat pat (s.take i) with
  | none => rfl
  | some k =>
    obtain ⟨hm, -⟩ := findPat_min h
    obtain ⟨hm', hkn⟩ := matchAt_of_take hp hm
    have hklt : k < i := by
      have hpos : 0 < pat.length := List.length_pos.mpr hp
      omega
    have hfalse := (findPat_min hf).2 k hklt
    rw [hm'] at hfalse
    cases hfalse

lemma hasBlock_of_no_open {s : List Char}
    (h : findPat openScriptT s = none) : hasBlock s = false := by
  unfold hasBlock
  rw [h]

lemma hasBlock_of_open {s : List Char} {i : Nat}
    (h : findPat openScriptT s = some i) :
    hasBlock s = (findPat closeScriptT (s.drop (i + 7))).isSome := by
  unfold hasBlock
  rw [h]

lemma stripSegsF_no_block :
    ∀ (fuel : Nat) (s : List Char), s.length ≤ fuel →
      ∀ seg ∈ stripSegsF fuel s, hasBlock seg = false := by
  intro fuel
  induction fuel with
  | zero =>
    intro s hs seg hseg
    have hnil : s = [] := List.length_eq_zero.mp (Nat.le_zero.mp hs)
    subst hnil
    simp only [stripSegsF, List.mem_singleton] at hseg
    subst hseg
    decide
  | succ n ih =>
    intro s hs seg hseg
    rw [stripSegsF] at hseg
    split at hseg
    case _ ho =>
      simp only [List.mem_singleton] at hseg
      subst hseg
      exact hasBlock_of_no_open ho
    case _ i ho =>
      split at hseg
      case _ hc =>
        simp only [List.mem_singleton] at hseg
        subst hseg
        rw [hasBlock_of_open ho, hc]
        rfl
      case _ j hc =>
        simp only [List.mem_cons] at hseg
        rcases hseg with rfl | hmem
        · exact hasBlock_of_no_open (findPat_take_none (by decide) ho)
        · refine ih _ ?_ seg hmem
          have h1 := findPat_some_le ho
          have h2 := findPat_some_le hc
          have e7 : openScriptT.length = 7 := rfl
          have e9 : closeScriptT.length = 9 := rfl
          rw [e7] at h1
          rw [e9] at h2
          simp only [List.length_drop] at h2 ⊢
          omega

lemma stripSegs_no_block (s : List Char) :
    ∀ seg ∈ stripSegs s, hasBlock seg = false :=
  stripSegsF_no_block s.length s le_rfl

lemma hasBlock_iff (s : List Char) : hasBlock s = true ↔ containsScriptBlock s := by
  constructor
  · intro h
    cases ho : findPat openScriptT s with
    | none => rw [hasBlock_of_no_open ho] at h; cases h
    | some i =>
      rw [hasBlock_of_open ho] at h
      cases hc : findPat closeScriptT (s.drop (i + 7)) with
      | none => rw [hc] at h; cases h
      | some j =>
        refine ⟨i, i + 7 + j, (findPat_min ho).1, ?_, by omega⟩
        have hm := (findPat_min hc).1
        rwa [List.drop_drop] at hm
  · rintro ⟨p, q, hop, hcl, hpq⟩
    cases ho : findPat openScriptT s with
    | none =>
      rw [findPat_none ho p] at hop
      cases hop
    | some i =>
      have hip : i ≤ p := by
        by_contra hlt
        push_neg at hlt
        rw [(findPat_min ho).2 p hlt] at hop
        cases hop
      rw [hasBlock_of_open ho]
      cases hc : findPat closeScriptT (s.drop (i + 7)) with
      | none =>
        have hnone := findPat_none hc (q - (i + 7))
        rw [List.drop_drop] at hnone
        have hq : i + 7 + (q - (i + 7)) = q := by omega
        rw [hq] at hnone
        rw [hnone] at hcl
        cases hcl
      | some j => rfl

end CodeLab

namespace CodeLab

lemma applyDom_lastJs (st : SandboxState) (m : UpdateMsg) :
    (applyDom st m).lastJs = st.lastJs := by
  obtain ⟨mh, mc, mj⟩ := m
  cases mc <;> cases mh <;> rfl

lemma sandboxStep_lastJs {throws : List Char → Bool} {st : SandboxState}
    {m : UpdateMsg} {j : List Char} (hjs : m.js = some j) :
    (sandboxStep throws st m).1.lastJs = j := by
  simp only [sandboxStep, hjs]
  by_cases hb : (j == (applyDom st m).lastJs) = true
  · rw [if_pos hb]
    exact (eq_of_beq hb).symm
  · rw [if_neg hb]

lemma sandboxStep_no_reexec {throws : List Char → Bool} {st : SandboxState}
    {m : UpdateMsg} {j : List Char} (hjs : m.js = some j)
    (hlast : st.lastJs = j) : (sandboxStep throws st m).2 = [] := by
  simp only [sandboxStep, hjs]
  have hb : (j == (applyDom st m).lastJs) = true := by
    rw [applyDom_lastJs, hlast]
    exact beq_self_eq_true j
  rw [if_pos hb]

lemma sandboxStep_exec {throws : List Char → Bool} {st : SandboxState}
    {m : UpdateMsg} {j : List Char} (hjs : m.js = some j)
    (hne : j ≠ st.lastJs) :
    (sandboxStep throws st m).2 = [⟨wrapIife j, throws (wrapIife j)⟩] := by
  simp only [sandboxStep, hjs]
  have hb : (j == (applyDom st m).lastJs) = false := by
    rw [applyDom_lastJs]
    exact beq_eq_false_iff_ne.mpr hne
  rw [if_neg (by simp [hb])]

lemma sandboxStep_len_le (throws : List Char → Bool) (st : SandboxState)
    (m : UpdateMsg) : (sandboxStep throws st m).2.length ≤ 1 := by
  cases hjs : m.js with
  | none =>
    simp only [sandboxStep, hjs]
    simp
  | some j =>
    by_cases hb : j = st.lastJs
    · rw [sandboxStep_no_reexec hjs hb.symm]
      simp
    · rw [sandboxStep_exec hjs hb]
      simp

lemma hostStep_gated {s : HostState} {e : HostEvent} (h1 : s.isReady = false)
    (h2 : s.pending = false) (he : isReadySig e = false) :
    (hostStep s e).1.isReady = false ∧ (hostStep s e).1.pending = false ∧
      (hostStep s e).2 = [] := by
  cases e with
  | mount =>
    simp only [hostStep]
    split <;> exact ⟨h1, h2, rfl⟩
  | readySignal => simp [isReadySig] at he
  | filesChanged fs => simp [hostStep, h1, h2]
  | timerFire => simp [hostStep, h1, h2]
  | refresh => simp [hostStep, h1, h2]

lemma hostRun_gated :
    ∀ (evs : List HostEvent) (s : HostState), s.isReady = false →
      s.pending = false → (∀ e ∈ evs, isReadySig e = false) →
      (hostRun s evs).1.isReady = false ∧ (hostRun s evs).1.pending = false ∧
        (hostRun s evs).2 = [] := by
  intro evs
  induction evs with
  | nil => exact fun s h1 h2 _ => ⟨h1, h2, rfl⟩
  | cons e es ih =>
    intro s h1 h2 hno
    obtain ⟨g1, g2, g3⟩ :=
      hostStep_gated h1 h2 (hno e (List.mem_cons_self e es))
    obtain ⟨r1, r2, r3⟩ := ih (hostStep s e).1 g1 g2
      (fun e' h' => hno e' (List.mem_cons_of_mem e h'))
    exact ⟨r1, r2, by simp [hostRun, g3, r3]⟩

lemma hostStep_not_ready {s : HostState} {e : HostEvent}
    (h1 : s.isReady = false) (he : isReadySig e = false) :
    (hostStep s e).1.isReady = false := by
  cases e with
  | mount =>
    simp only [hostStep]
    split <;> exact h1
  | readySignal => simp [isReadySig] at he
  | filesChanged fs => simp [hostStep, h1]
  | timerFire =>
    simp only [hostStep]
    split <;> exact h1
  | refresh => simp [hostStep, h1]

lemma hostRun_stays_not_ready :
    ∀ (evs : List HostEvent) (s : HostState), s.isReady = false →
      (∀ e ∈ evs, isReadySig e = false) → (hostRun s evs).1.isReady = false := by
  intro evs
  induction evs with
  | nil => exact fun s h1 _ => h1
  | cons e es ih =>
    intro s h1 hno
    exact ih (hostStep s e).1
      (hostStep_not_ready h1 (hno e (List.mem_cons_self e es)))
      (fun e' h' => hno e' (List.mem_cons_of_mem e h'))

lemma hostRun_cons (s : HostState) (e : HostEvent) (es : List HostEvent) :
    hostRun s (e :: es) =
      ((hostRun (hostStep s e).1 es).1,
        (hostStep s e).2 ++ (hostRun (hostStep s e).1 es).2) := rfl

lemma hostRun_files_burst :
    ∀ (fss : List (List ProjectFile)) (s : HostState) (hne : fss ≠ [])
      (hr : s.isReady = true) (tail : List HostEvent),
      hostRun s (fss.map HostEvent.filesChanged ++ tail) =
        hostRun { s with files := fss.getLast hne, pending := true } tail := by
  intro fss
  induction fss with
  | nil => intro s hne; cases hne rfl
  | cons fs rest ih =>
    intro s hne hr tail
    have hstep1 : (hostStep s (HostEvent.filesChanged fs)).1 =
        { s with files := fs, pending := true } := by
      simp [hostStep, hr]
    have hstep2 : (hostStep s (HostEvent.filesChanged fs)).2 = [] := by
      simp [hostStep, hr]
    cases rest with
    | nil =>
      show hostRun s (HostEvent.filesChanged fs :: tail) = _
      rw [hostRun_cons, hstep1, hstep2]
      rfl
    | cons b l =>
      have hne' : b :: l ≠ [] := List.cons_ne_nil b l
      show hostRun s
          (HostEvent.filesChanged fs ::
            ((b :: l).map HostEvent.filesChanged ++ tail)) = _
      rw [hostRun_cons, hstep1, hstep2,
        ih { s with files := fs, pending := true } hne' hr tail]
      rfl

end CodeLab

namespace CodeLab

/-- Entry-file content of the body extraction round-trip scenario. -/
def entryDemo : List Char :=
  "<html><body><h1>Hi</h1><script>doStuff()</script></body></html>".toList

/-- A demo vanilla project: entry file, stylesheet and separate script. -/
def demoFiles : List ProjectFile :=
  [⟨"/index.html".toList, entryDemo, "html".toList⟩,
   ⟨"/styles.css".toList, "h1 \x7b color: red; \x7d".toList, "css".toList⟩,
   ⟨"/app.js".toList, "doOther()".toList, "javascript".toList⟩]

/-- A second file-set state, as after one edit. -/
def demoFiles2 : List ProjectFile :=
  [⟨"/index.html".toList, "<body><p>v2</p></body>".toList, "html".toList⟩]

/-- A third file-set state, as after a further edit. -/
def demoFiles3 : List ProjectFile :=
  [⟨"/index.html".toList, "<body><p>v3</p></body>".toList, "html".toList⟩,
   ⟨"/app.js".toList, "three()".toList, "javascript".toList⟩]

/-- A file set with no entry file, no stylesheet and no qualifying script. -/
def demoNoLayers : List ProjectFile :=
  [⟨"/README.md".toList, "hello".toList, "markdown".toList⟩,
   ⟨"/package.json".toList, "\x7b\x7d".toList, "json".toList⟩]

/-- A session that has loaded the bootstrap document but got no ready
signal yet. -/
def bootedDemo : HostState := ⟨false, true, false, demoFiles, 1⟩

/-- A session in the ready state with no pending debounce timer. -/
def readyDemo : HostState := ⟨true, true, false, demoFiles, 1⟩

/-- A demo update message carrying all three layers. -/
def demoMsg : UpdateMsg :=
  ⟨some "<p>x</p>".toList, some "p \x7b\x7d".toList, some "go()".toList⟩

/-- C1 (readiness gating): starting from any state of the current boot
cycle with readiness false and no pending timer (as after mount or
refresh), a run containing no ready signal posts no update message; in
particular a file-set change while booted-but-not-ready posts nothing, and
the eventual ready handler posts exactly one update extracted from the
then-current file set. -/
theorem c1_readiness_gating (s : HostState) (evs : List HostEvent)
    (hr : s.isReady = false) (hp : s.pending = false)
    (hno : ∀ e ∈ evs, isReadySig e = false) :
    (hostRun s evs).2 = [] ∧
    ∀ fs, (hostStep s (HostEvent.filesChanged fs)).2 = [] ∧
      (hostStep (hostStep s (HostEvent.filesChanged fs)).1
          HostEvent.readySignal).2 = [getContents fs] := by
  refine ⟨(hostRun_gated evs s hr hp hno).2.2, ?_⟩
  intro fs
  have hstep1 : (hostStep s (HostEvent.filesChanged fs)).1 =
      { s with files := fs } := by
    simp [hostStep, hr]
  have hstep2 : (hostStep s (HostEvent.filesChanged fs)).2 = [] := by
    simp [hostStep, hr]
  refine ⟨hstep2, ?_⟩
  rw [hstep1]
  simp only [hostStep]
  split <;> rfl

/-- C1 witness: a concrete booted run with a mount, an edit and a timer
event posts nothing, and the eventual ready handler sends the edited
content. -/
theorem c1_witness :
    (hostRun (initHost demoFiles)
        [HostEvent.mount, HostEvent.filesChanged demoFiles2,
          HostEvent.timerFire]).2 = [] ∧
    (hostStep (hostStep (initHost demoFiles)
        (HostEvent.filesChanged demoFiles2)).1 HostEvent.readySignal).2 =
      [getContents demoFiles2] := by
  have h := c1_readiness_gating (initHost demoFiles)
    [HostEvent.mount, HostEvent.filesChanged demoFiles2, HostEvent.timerFire]
    rfl rfl (by decide)
  exact ⟨h.1, (h.2 demoFiles2).2⟩

/-- C2 (debounce coalescing): any burst of one or more file-set changes in
a ready session followed by the single pending timer firing posts exactly
one update message, extracted from the file set of the last notification;
a stale further timer event posts nothing more. -/
theorem c2_debounce_coalescing (s : HostState) (fss : List (List ProjectFile))
    (hne : fss ≠ []) (hr : s.isReady = true) :
    (hostRun s (fss.map HostEvent.filesChanged ++ [HostEvent.timerFire])).2 =
      [getContents (fss.getLast hne)] ∧
    (hostRun s (fss.map HostEvent.filesChanged ++
        [HostEvent.timerFire, HostEvent.timerFire])).2 =
      [getContents (fss.getLast hne)] := by
  rw [hostRun_files_burst fss s hne hr [HostEvent.timerFire],
    hostRun_files_burst fss s hne hr [HostEvent.timerFire, HostEvent.timerFire]]
  exact ⟨rfl, rfl⟩

/-- C2 witness: two edits inside one debounce window produce exactly the
one update carrying the second edit's extraction. -/
theorem c2_witness :
    (hostRun readyDemo
        [HostEvent.filesChanged demoFiles2, HostEvent.filesChanged demoFiles3,
          HostEvent.timerFire]).2 = [getContents demoFiles3] :=
  (c2_debounce_coalescing readyDemo [demoFiles2, demoFiles3] (by decide) rfl).1

/-- C3 (script dedup): for two consecutive update messages carrying the
same `js` string, the sandbox listener executes nothing on the second
message, and the two messages together attempt at most one execution. -/
theorem c3_script_dedup (throws : List Char → Bool) (st : SandboxState)
    (m1 m2 : UpdateMsg) (j : List Char) (h1 : m1.js = some j)
    (h2 : m2.js = some j) :
    (sandboxStep throws (sandboxStep throws st m1).1 m2).2 = [] ∧
    (sandboxStep throws st m1).2.length +
      (sandboxStep throws (sandboxStep throws st m1).1 m2).2.length ≤ 1 := by
  have hl := @sandboxStep_lastJs throws st m1 j h1
  have he := @sandboxStep_no_reexec throws (sandboxStep throws st m1).1 m2 j h2 hl
  refine ⟨he, ?_⟩
  rw [he]
  simpa using sandboxStep_len_le throws st m1

/-- C3 witness: sending the same concrete update twice to a fresh sandbox
executes nothing the second time. -/
theorem c3_witness :
    (sandboxStep (fun _ => false)
        (sandboxStep (fun _ => false) initSandbox demoMsg).1 demoMsg).2 = [] :=
  (c3_script_dedup (fun _ => false) initSandbox demoMsg demoMsg
    "go()".toList rfl rfl).1

end CodeLab

namespace CodeLab

/-- The splice counterexample: removing the two `<script></script>`
matches from this content concatenates the flanking fragments into a brand
new complete script block. -/
def spliceInput : List Char :=
  "<scri<script></script>pt>hello</scri<script></script>pt>".toList

/-- C4 counterexample: for this entry-file content the markup layer
produced by extraction is exactly `<script>hello</script>`, which contains
a complete `<script>...</script>` block — refuting the claim that the
extracted markup never contains one. -/
theorem c4_counterexample :
    extractBodyContent spliceInput = "<script>hello</script>".toList ∧
    containsScriptBlock (extractBodyContent spliceInput) := by
  refine ⟨by decide, 0, 13, by decide, by decide, by decide⟩

/-- C4 amended (single-pass stripping): the markup layer is the trimmed
concatenation of the segments kept by one left-to-right non-greedy pass
over the body candidate, and no kept segment contains a complete script
block; a complete block can therefore appear in the markup only by
splicing fragments across a removal point, as the counterexample does. -/
theorem c4_single_pass_strip (html : List Char) :
    extractBodyContent html =
      trimChars ((stripSegs (bodyCandidate html)).flatten) ∧
    ∀ seg ∈ stripSegs (bodyCandidate html), hasBlock seg = false := by
  refine ⟨?_, stripSegs_no_block (bodyCandidate html)⟩
  unfold extractBodyContent bodyCandidate stripScripts
  by_cases he : html.isEmpty
  · rw [if_pos he]
    have hnil : html = [] := by simpa using he
    subst hnil
    rfl
  · rw [if_neg he]
    cases hb : bodyMatch html with
    | some inner => rfl
    | none => rfl

/-- C4 witness: on the round-trip entry content, the kept segment
`<h1>Hi</h1>` of the body candidate contains no complete script block. -/
theorem c4_witness : hasBlock "<h1>Hi</h1>".toList = false :=
  (c4_single_pass_strip entryDemo).2 "<h1>Hi</h1>".toList (by decide)

/-- C5 counterexample: in a booted, not-yet-ready session, one ready
signal posts one update and a second ready signal in the same boot cycle
posts another — refuting the claim that subsequent ready messages cause no
additional update message. -/
theorem c5_counterexample :
    (hostRun bootedDemo [HostEvent.readySignal]).2.length = 1 ∧
    (hostRun bootedDemo
        [HostEvent.readySignal, HostEvent.readySignal]).2.length = 2 :=
  ⟨rfl, rfl⟩

/-- C5 amended (repeat ready signals): a ready signal always leaves the
session ready, and a repeated ready signal in the same boot cycle causes
no further state change — but the handler is not latched: every ready
signal posts one more update message extracted from the live files. -/
theorem c5_amended_repeat_ready (s : HostState) :
    (hostStep s HostEvent.readySignal).1.isReady = true ∧
    (hostStep s HostEvent.readySignal).2 = [getContents s.files] ∧
    (hostStep (hostStep s HostEvent.readySignal).1 HostEvent.readySignal).1 =
      (hostStep s HostEvent.readySignal).1 ∧
    (hostStep (hostStep s HostEvent.readySignal).1 HostEvent.readySignal).2 =
      [getContents s.files] := by
  by_cases hr : s.isReady = true
  · have e1 : hostStep s HostEvent.readySignal = (s, [getContents s.files]) := by
      simp [hostStep, hr]
    rw [e1]
    exact ⟨hr, rfl, by simp [hostStep, hr], by simp [hostStep, hr]⟩
  · have hf : s.isReady = false := by simpa using hr
    have e1 : hostStep s HostEvent.readySignal =
        ({ s with isReady := true, pending := true }, [getContents s.files]) := by
      simp [hostStep, hf]
    rw [e1]
    refine ⟨rfl, rfl, ?_, ?_⟩
    · simp [hostStep]
    · simp [hostStep]

/-- C6 (body extraction round-trip): on the concrete entry content the
markup layer is `<h1>Hi</h1>` with the inline script block removed, and
the js layer is the separate script file's content, not the inline
`doStuff()` script. -/
theorem c6_body_roundtrip :
    extractBodyContent entryDemo = "<h1>Hi</h1>".toList ∧
    (getContents demoFiles).html = "<h1>Hi</h1>".toList ∧
    (getContents demoFiles).js = "doOther()".toList ∧
    (getContents demoFiles).js ≠ "doStuff()".toList := by
  exact ⟨by decide, by decide, by decide, by decide⟩

/-- C7 (no-body fallback): any non-empty entry content on which the body
regex does not match — including an unterminated body tag — degrades to
the whole content with complete script matches removed and whitespace
trimmed; extraction is total, so nothing is thrown. -/
theorem c7_no_body_fallback (html : List Char) (hne : html ≠ [])
    (hnb : bodyMatch html = none) :
    extractBodyContent html = trimChars (stripScripts html) := by
  unfold extractBodyContent
  rw [if_neg (by simp [List.isEmpty_eq_false.mpr hne]), hnb]

/-- C7 witness: an unterminated `<body>` tag falls back to whole-content
extraction. -/
theorem c7_witness :
    extractBodyContent "<body>x<script>a</script>".toList =
      trimChars (stripScripts "<body>x<script>a</script>".toList) :=
  c7_no_body_fallback "<body>x<script>a</script>".toList (by decide) (by decide)

end CodeLab

namespace CodeLab

/-- C8 (extraction totality and degradation): extraction is a total
function; when no file matches the recognized entry paths the markup layer
is empty, when no path ends in `.css` the stylesheet layer is empty, and
when no path both ends in `.js` and avoids `package.json` the script layer
is empty. -/
theorem c8_extraction_degradation (files : List ProjectFile) :
    ((∀ f ∈ files,
        (f.path == "/index.html".toList || f.path == "index.html".toList) =
          false) → (getContents files).html = []) ∧
    ((∀ f ∈ files, ".css".toList.isSuffixOf f.path = false) →
      (getContents files).css = []) ∧
    ((∀ f ∈ files,
        (".js".toList.isSuffixOf f.path &&
          !(decide ("package.json".toList <:+: f.path))) = false) →
      (getContents files).js = []) := by
  refine ⟨?_, ?_, ?_⟩ <;> intro h
  · have hf : (files.find? fun f =>
        f.path == "/index.html".toList || f.path == "index.html".toList) =
          none :=
      List.find?_eq_none.mpr fun x hx => by
        simp only [h x hx]
        exact Bool.false_ne_true
    simp only [getContents, hf]
    rfl
  · have hf : (files.find? fun f => ".css".toList.isSuffixOf f.path) = none :=
      List.find?_eq_none.mpr fun x hx => by
        simp only [h x hx]
        exact Bool.false_ne_true
    simp only [getContents, hf]
    rfl
  · have hf : (files.find? fun f =>
        ".js".toList.isSuffixOf f.path &&
          !(decide ("package.json".toList <:+: f.path))) = none :=
      List.find?_eq_none.mpr fun x hx => by
        simp only [h x hx]
        exact Bool.false_ne_true
    simp only [getContents, hf]
    rfl

/-- C8 witness: a file set with only a readme and a package manifest
degrades to three empty layers. -/
theorem c8_witness :
    (getContents demoNoLayers).html = [] ∧
    (getContents demoNoLayers).css = [] ∧
    (getContents demoNoLayers).js = [] := by
  have h := c8_extraction_degradation demoNoLayers
  exact ⟨h.1 (by decide), h.2.1 (by decide), h.2.2 (by decide)⟩

/-- C9 (manual refresh resets the session): refresh clears readiness and
the boot latch, reloads the bootstrap document (boot counter increments),
and readiness stays false through any ready-free continuation; no other
event reloads the document — file-set changes, timer fires and ready
signals never touch the boot counter, and a mount with the latch set does
not either. -/
theorem c9_refresh_resets (s : HostState) (evs : List HostEvent)
    (hno : ∀ e ∈ evs, isReadySig e = false) :
    (hostStep s HostEvent.refresh).1.isReady = false ∧
    (hostStep s HostEvent.refresh).1.bootLatch = false ∧
    (hostStep s HostEvent.refresh).1.boots = s.boots + 1 ∧
    (hostRun (hostStep s HostEvent.refresh).1 evs).1.isReady = false ∧
    (∀ fs, (hostStep s (HostEvent.filesChanged fs)).1.boots = s.boots) ∧
    (hostStep s HostEvent.timerFire).1.boots = s.boots ∧
    (hostStep s HostEvent.readySignal).1.boots = s.boots ∧
    (s.bootLatch = true → (hostStep s HostEvent.mount).1.boots = s.boots) := by
  have r1 : (hostStep s HostEvent.refresh).1.isReady = false := by
    simp only [hostStep]
    split
    · rfl
    · next hf =>
        show s.isReady = false
        simpa using hf
  have r2 : (hostStep s HostEvent.refresh).1.bootLatch = false := by
    simp only [hostStep]
    split <;> rfl
  have r3 : (hostStep s HostEvent.refresh).1.boots = s.boots + 1 := by
    simp only [hostStep]
    split <;> rfl
  refine ⟨r1, r2, r3, hostRun_stays_not_ready evs _ r1 hno, ?_, ?_, ?_, ?_⟩
  · intro fs
    simp only [hostStep]
    split <;> rfl
  · simp only [hostStep]
    split <;> rfl
  · simp only [hostStep]
    split <;> rfl
  · intro hb
    simp [hostStep, hb]

/-- C9 witness: refreshing the concrete ready session resets readiness and
the latch, bumps the boot counter, and an edit plus timer fire leaves the
session still not ready. -/
theorem c9_witness :
    (hostStep readyDemo HostEvent.refresh).1.isReady = false ∧
    (hostStep readyDemo HostEvent.refresh).1.bootLatch = false ∧
    (hostStep readyDemo HostEvent.refresh).1.boots = readyDemo.boots + 1 ∧
    (hostRun (hostStep readyDemo HostEvent.refresh).1
        [HostEvent.filesChanged demoFiles2, HostEvent.timerFire]).1.isReady =
      false := by
  have h := c9_refresh_resets readyDemo
    [HostEvent.filesChanged demoFiles2, HostEvent.timerFire] (by decide)
  exact ⟨h.1, h.2.1, h.2.2.1, h.2.2.2.1⟩

/-- C10 (failing scripts still recorded): on a message whose `js` differs
from the remembered script, the listener records the new script in
`__lastJs__` and attempts exactly one execution — whether or not that
execution faults; a later message with the identical `js` attempts no
execution, and only a different `js` triggers execution again. -/
theorem c10_fault_still_recorded (throws : List Char → Bool)
    (st : SandboxState) (m : UpdateMsg) (j : List Char)
    (hjs : m.js = some j) (hne : j ≠ st.lastJs) :
    (sandboxStep throws st m).1.lastJs = j ∧
    (sandboxStep throws st m).2 = [⟨wrapIife j, throws (wrapIife j)⟩] ∧
    (∀ m2, m2.js = some j →
      (sandboxStep throws (sandboxStep throws st m).1 m2).2 = []) ∧
    (∀ m2 j2, m2.js = some j2 → j2 ≠ j →
      (sandboxStep throws (sandboxStep throws st m).1 m2).2 =
        [⟨wrapIife j2, throws (wrapIife j2)⟩]) := by
  have hl := @sandboxStep_lastJs throws st m j hjs
  refine ⟨hl, sandboxStep_exec hjs hne, ?_, ?_⟩
  · intro m2 h2
    exact sandboxStep_no_reexec h2 hl
  · intro m2 j2 h2 hne2
    refine sandboxStep_exec h2 ?_
    rw [hl]
    exact hne2

/-- C10 witness: with a script that always faults at run time, the fresh
sandbox still records it as last executed, and resending it attempts no
execution. -/
theorem c10_witness :
    (sandboxStep (fun _ => true) initSandbox demoMsg).1.lastJs =
      "go()".toList ∧
    (sandboxStep (fun _ => true) initSandbox demoMsg).2 =
      [⟨wrapIife "go()".toList, true⟩] ∧
    (sandboxStep (fun _ => true)
        (sandboxStep (fun _ => true) initSandbox demoMsg).1 demoMsg).2 =
      [] := by
  have h := c10_fault_still_recorded (fun _ => true) initSandbox demoMsg
    "go()".toList rfl (by decide)
  exact ⟨h.1, by rw [h.2.1], h.2.2.1 demoMsg rfl⟩

end CodeLab
